import Mathlib

/-!
Verification development for the `saba` browser-engine core
(`saba_core`: `url.rs`, `http.rs`, `renderer/html/token.rs`,
`renderer/html/attribute.rs`).

Rust strings are modelled as `List Char` (a Rust `String`/`&str` is a
sequence of Unicode scalar values; every delimiter used by this code is
ASCII, so byte-index splitting in the source coincides with
character-index splitting in the model).  Fallible operations (indexing,
asserts, explicit `panic!`) are modelled with `Option`/dedicated result
types whose "panic" constructor marks a Rust panic.
-/

set_option maxRecDepth 10000

namespace Saba

/-- Rust `char::is_ascii_uppercase`. -/
def isAsciiUppercase (c : Char) : Bool := 'A' ≤ c && c ≤ 'Z'

/-- Rust `char::to_ascii_lowercase`: uppercase ASCII letters are shifted by 32. -/
def toAsciiLowercase (c : Char) : Char :=
  if isAsciiUppercase c then Char.ofNat (c.toNat + 32) else c

/-- Rust `char::is_ascii_alphabetic`. -/
def isAsciiAlphabetic (c : Char) : Bool :=
  ('A' ≤ c && c ≤ 'Z') || ('a' ≤ c && c ≤ 'z')

/-- Rust `char::is_whitespace`: the Unicode `White_Space` code points. -/
def isRustWhitespace (c : Char) : Bool :=
  ([9, 10, 11, 12, 13, 32, 133, 160, 5760, 8192, 8193, 8194, 8195, 8196,
    8197, 8198, 8199, 8200, 8201, 8202, 8232, 8233, 8239, 8287, 12288] :
    List Nat).contains c.toNat

/-- Index of the first occurrence of the character `c` (Rust `str::find`
with a `char` pattern). -/
def findChar (c : Char) : List Char → Option Nat
  | [] => none
  | a :: as => if a = c then some 0 else (findChar c as).map (· + 1)

/-- Rust `str::splitn(2, p)` for a one-character pattern `p`: split at the
first occurrence of `p`; the result has one or two pieces. -/
def splitn2 (sep : Char) (s : List Char) : List (List Char) :=
  match findChar sep s with
  | some i => [s.take i, s.drop (i + 1)]
  | none => [s]

/-- Rust `str::split(char)`: split at every occurrence of `sep`, keeping
empty pieces (the result is never empty). -/
def splitAllChar (sep : Char) : List Char → List (List Char)
  | [] => [[]]
  | c :: rest =>
    if c = sep then [] :: splitAllChar sep rest
    else
      match splitAllChar sep rest with
      | [] => [[c]]
      | p :: ps => (c :: p) :: ps

/-- Rust `str::split_once(char)`. -/
def splitOnceChar (sep : Char) (s : List Char) : Option (List Char × List Char) :=
  match findChar sep s with
  | some i => some (s.take i, s.drop (i + 1))
  | none => none

/-- Index of the first occurrence of the substring `pat`
(Rust `str::find` with a `&str` pattern). -/
def findSeq (pat : List Char) : List Char → Option Nat
  | [] => if pat.isEmpty then some 0 else none
  | c :: rest =>
    if pat.isPrefixOf (c :: rest) then some 0 else (findSeq pat rest).map (· + 1)

/-- Rust `str::split_once(&str)`. -/
def splitOnceSeq (pat : List Char) (s : List Char) : Option (List Char × List Char) :=
  match findSeq pat s with
  | some i => some (s.take i, s.drop (i + pat.length))
  | none => none

/-- Rust `str::contains(&str)`: substring containment. -/
def containsSeq (pat : List Char) : List Char → Bool
  | [] => pat.isPrefixOf ([] : List Char)
  | c :: rest => pat.isPrefixOf (c :: rest) || containsSeq pat rest

/-- Helper for `trimStartMatches`: the fuel bounds the number of strips.
Each successful strip removes at least one character, so fuel `s.length`
always suffices; when the fuel runs out the remainder is returned
unchanged (which can only happen once the remainder is empty). -/
def trimStartMatchesFuel (pat : List Char) : Nat → List Char → List Char
  | 0, s => s
  | f + 1, s =>
    if pat ≠ [] ∧ pat.isPrefixOf s then
      trimStartMatchesFuel pat f (s.drop pat.length)
    else s

/-- Rust `str::trim_start_matches(&str)`: repeatedly remove the prefix
`pat` while it matches (for a nonempty `pat`). -/
def trimStartMatches (pat : List Char) (s : List Char) : List Char :=
  trimStartMatchesFuel pat s.length s

/-- Helper for `replaceSeq`: the fuel bounds the number of consumed
characters, so fuel `s.length` always suffices. -/
def replaceSeqFuel (pat rep : List Char) : Nat → List Char → List Char
  | 0, s => s
  | _ + 1, [] => []
  | f + 1, c :: rest =>
    if pat ≠ [] ∧ pat.isPrefixOf (c :: rest) then
      rep ++ replaceSeqFuel pat rep f ((c :: rest).drop pat.length)
    else c :: replaceSeqFuel pat rep f rest

/-- Rust `str::replace(from, to)`: left-to-right, non-overlapping
replacement of every occurrence of `pat` (for a nonempty `pat`). -/
def replaceSeq (pat rep : List Char) (s : List Char) : List Char :=
  replaceSeqFuel pat rep s.length s

/-- Rust `str::trim_start` (Unicode whitespace). -/
def trimStart : List Char → List Char
  | [] => []
  | c :: rest => if isRustWhitespace c then trimStart rest else c :: rest

/-- Rust `str::trim` (both ends). -/
def trimBoth (s : List Char) : List Char :=
  (trimStart (trimStart s).reverse).reverse

/-- Rust `str::parse::<u32>`: an optional leading `+`, then one or more
ASCII digits, value below `2^32`; anything else fails. -/
def parseU32 (s : List Char) : Option Nat :=
  let digits := match s with
    | '+' :: rest => rest
    | _ => s
  if !digits.isEmpty && digits.all (fun c => '0' ≤ c && c ≤ '9') then
    let n := digits.foldl (fun acc c => acc * 10 + (c.toNat - 48)) 0
    if n < 4294967296 then some n else none
  else none

/-! ## `url.rs`: the `Url` struct and its parser -/

/-- The `Url` struct of `saba_core/src/url.rs`. -/
structure Url where
  url : List Char
  host : List Char
  port : List Char
  path : List Char
  searchpart : List Char
deriving DecidableEq

/-- Model of `Url::new`: constructor; every component other than `url` starts empty. -/
def Url.new (url : List Char) : Url :=
  { url := url, host := [], port := [], path := [], searchpart := [] }

/-- Model of `Url::is_http`: `self.url.contains("http://")` — substring containment,
not a prefix test. -/
def Url.is_http (u : Url) : Bool :=
  containsSeq ("http://".toList) u.url

/-- The `splitn(2, "/")` of the scheme-trimmed URL, shared by all four
`extract_*` methods of the source. -/
def Url.urlParts (u : Url) : List (List Char) :=
  splitn2 '/' (trimStartMatches ("http://".toList) u.url)

/-- Model of `Url::extract_host`: everything in the first piece before a `:`, if any. -/
def Url.extract_host (u : Url) : List Char :=
  let url_parts := u.urlParts
  match findChar ':' (url_parts.headD []) with
  | some i => (url_parts.headD []).take i
  | none => url_parts.headD []

/-- Model of `Url::extract_port`: everything in the first piece after a `:`;
`"80"` when there is no `:`. -/
def Url.extract_port (u : Url) : List Char :=
  let url_parts := u.urlParts
  match findChar ':' (url_parts.headD []) with
  | some i => (url_parts.headD []).drop (i + 1)
  | none => "80".toList

/-- Model of `Url::extract_path`: empty when there is no `/` after the scheme;
otherwise the second piece up to the first `?`. -/
def Url.extract_path (u : Url) : List Char :=
  let url_parts := u.urlParts
  if url_parts.length < 2 then []
  else (splitn2 '?' (url_parts.getD 1 [])).headD []

/-- Model of `Url::extract_searchpart`: empty when there is no `/` after the scheme
or no `?` after that; otherwise everything after the first `?`. -/
def Url.extract_searchpart (u : Url) : List Char :=
  let url_parts := u.urlParts
  if url_parts.length < 2 then []
  else
    let path_and_serchpart := splitn2 '?' (url_parts.getD 1 [])
    if path_and_serchpart.length < 2 then []
    else path_and_serchpart.getD 1 []

/-- Model of `Url::parse`: reject every URL whose text does not contain `"http://"`,
otherwise fill in the four components (each is computed from `self.url`
alone, so the sequential field assignments of the source equal this
simultaneous update). -/
def Url.parse (u : Url) : Except (List Char) Url :=
  if u.is_http then
    Except.ok
      { u with
        host := u.extract_host
        port := u.extract_port
        path := u.extract_path
        searchpart := u.extract_searchpart }
  else
    Except.error ("Only HTTP scheme is supported.".toList)

/-! ## Claims about the URL parser -/

/-- Modelled from the spec: `crate::error::Error` (module `error.rs`) is
not under `src/`; per the spec the response parser reports "a recoverable,
reported error identifying the offending raw text", so the `Network`
variant carries that message. -/
inductive Error where
  | Network (msg : List Char)
deriving DecidableEq

/-- The `Header` struct of `saba_core/src/http.rs`. -/
structure Header where
  name : List Char
  value : List Char
deriving DecidableEq

/-- Outcome of running a fallible Rust function: a panic (out-of-bounds
indexing or a failed assert), a returned `Err`, or a returned `Ok`. -/
inductive RustOutcome (ε α : Type) where
  | panicked
  | err (e : ε)
  | ok (a : α)
deriving DecidableEq

/-- The `HttpResponse` struct of `saba_core/src/http.rs` (`status_code`
is a `u32`, modelled as `Nat`; every value the parser stores is below
`2^32`). -/
structure HttpResponse where
  version : List Char
  status_code : Nat
  reason : List Char
  headers : List Header
  body : List Char
deriving DecidableEq

/-- The header loop of `HttpResponse::new`: each line is split at the
first `:` into a trimmed name/value pair; a line without a `:` makes
`splitted_header[1]` index past the end of a one-element vector — a
panic, modelled as `none`. -/
def parseHeaders : List (List Char) → Option (List Header)
  | [] => some []
  | line :: rest =>
    match splitn2 ':' line with
    | [n, v] => (parseHeaders rest).map (fun hs => ⟨trimBoth n, trimBoth v⟩ :: hs)
    | _ => none

/-- Model of `HttpResponse::new`: trim leading whitespace and replace `"\n\r"` by
`"\n"`; split off the status line at the first `'\n'` (no line break is a
recoverable `Error::Network`); split headers from body at the first
`"\n\n"`; split the status line at every space and index pieces 0, 1, 2
without a length check (fewer than three pieces is a panic); an
unparseable status code falls back to 404. -/
def HttpResponse.new (raw_response : List Char) : RustOutcome Error HttpResponse :=
  let preprocessed_response := replaceSeq ("\n\r".toList) ("\n".toList) (trimStart raw_response)
  match splitOnceChar '\n' preprocessed_response with
  | none => RustOutcome.err (Error.Network (("invalid http response: ".toList) ++ preprocessed_response))
  | some (status_line, remaining) =>
    let hb : Option (List Header × List Char) :=
      match splitOnceSeq ("\n\n".toList) remaining with
      | some (h, b) => (parseHeaders (splitAllChar '\n' h)).map (fun hs => (hs, b))
      | none => some ([], remaining)
    match hb with
    | none => RustOutcome.panicked
    | some (headers, body) =>
      let statuses := splitAllChar ' ' status_line
      match statuses[0]? with
      | none => RustOutcome.panicked
      | some v =>
        match statuses[1]? with
        | none => RustOutcome.panicked
        | some s =>
          let code := (parseU32 s).getD 404
          match statuses[2]? with
          | none => RustOutcome.panicked
          | some r =>
            RustOutcome.ok
              { version := v, status_code := code, reason := r,
                headers := headers, body := body }

/-! ## Claims about the HTTP response parser -/

/-- The `Attribute` struct. -/
structure Attribute where
  name : List Char
  value : List Char
deriving DecidableEq

/-- Model of `Attribute::new`. -/
def Attribute.new : Attribute := { name := [], value := [] }

/-- Model of `Attribute::add_char`: append `c` to the name if `is_name`, else to
the value. -/
def Attribute.add_char (a : Attribute) (c : Char) (is_name : Bool) : Attribute :=
  if is_name then { a with name := a.name ++ [c] }
  else { a with value := a.value ++ [c] }

/-! ## `renderer/html/token.rs`: the HTML tokenizer -/

/-- The `HtmlToken` enum. -/
inductive HtmlToken where
  | StartTag (tag : List Char) (self_closing : Bool) (attributes : List Attribute)
  | EndTag (tag : List Char)
  | Char (c : Char)
  | Eof
deriving DecidableEq

/-- The `State` enum: the tokenizer automaton states. -/
inductive State where
  | Data
  | TagOpen
  | EndTagOpen
  | TagName
  | BeforeAttributeName
  | AttributeName
  | AfterAttributeName
  | BeforeAttributeValue
  | AttributeValueDoubleQuoted
  | AttributeValueSingleQuoted
  | AttributeValueUnquoted
  | AfterAttributeValueQuoted
  | SelfClosingStartTag
  | ScriptData
  | ScriptDataLessThanSign
  | ScriptDataEndTagOpen
  | ScriptDataEndTagName
  | TemporaryBuffer
deriving DecidableEq

/-- The `HtmlTokenizer` struct. -/
structure HtmlTokenizer where
  state : State
  pos : Nat
  reconsume : Bool
  latest_token : Option HtmlToken
  input : List Char
  buf : List Char
deriving DecidableEq

/-- Model of `HtmlTokenizer::new`. -/
def HtmlTokenizer.new (html : List Char) : HtmlTokenizer :=
  { state := State.Data, pos := 0, reconsume := false,
    latest_token := none, input := html, buf := [] }

/-- Model of `HtmlTokenizer::is_eof`: note the strict `pos > input.len()` of the
source. -/
def HtmlTokenizer.is_eof (t : HtmlTokenizer) : Bool :=
  t.pos > t.input.length

/-- Model of `create_tag`: the fresh pending token. -/
def createTag (start_tag_token : Bool) : HtmlToken :=
  if start_tag_token then HtmlToken.StartTag [] false []
  else HtmlToken.EndTag []

/-- Model of `append_tag_name`: appends one character to the pending tag's name;
`none` models the panic when no pending token exists (the assert) or it
is not a Start/EndTag (the `panic!` arm). -/
def appendTagName (c : Char) : Option HtmlToken → Option HtmlToken
  | some (HtmlToken.StartTag tag sc attrs) =>
      some (HtmlToken.StartTag (tag ++ [c]) sc attrs)
  | some (HtmlToken.EndTag tag) => some (HtmlToken.EndTag (tag ++ [c]))
  | _ => none

/-- Model of `start_new_attribute`: pushes an empty `Attribute` onto the pending
StartTag; `none` models the panic when the pending token is missing or
not a StartTag. -/
def startNewAttribute : Option HtmlToken → Option HtmlToken
  | some (HtmlToken.StartTag tag sc attrs) =>
      some (HtmlToken.StartTag tag sc (attrs ++ [Attribute.new]))
  | _ => none

/-- Model of `append_attribute`: `attributes[len-1].add_char(c, is_name)`; `none`
models the panics (missing/non-StartTag pending token, or the
`assert!(len > 0)`). -/
def appendAttribute (c : Char) (is_name : Bool) : Option HtmlToken → Option HtmlToken
  | some (HtmlToken.StartTag tag sc attrs) =>
      match attrs.getLast? with
      | none => none
      | some a =>
          some (HtmlToken.StartTag tag sc (attrs.dropLast ++ [a.add_char c is_name]))
  | _ => none

/-- Model of `set_self_closing_flag`; `none` models the panic when the pending
token is missing or not a StartTag. -/
def setSelfClosingFlag : Option HtmlToken → Option HtmlToken
  | some (HtmlToken.StartTag tag _ attrs) => some (HtmlToken.StartTag tag true attrs)
  | _ => none

/-- One read of the main loop of `Iterator::next`: `reconsume_input`
(reads `input[pos - 1]` and clears the flag, without moving `pos`) or
`consume_next_input` (reads `input[pos]` and advances `pos`); `none`
models the panic of the unchecked indexing (including the `pos = 0`
underflow of `pos - 1` in the reconsume case). -/
def readChar (t : HtmlTokenizer) : Option (Char × HtmlTokenizer) :=
  if t.reconsume then
    if h : 1 ≤ t.pos ∧ t.pos - 1 < t.input.length then
      some (t.input.get ⟨t.pos - 1, h.2⟩, { t with reconsume := false })
    else none
  else
    if h : t.pos < t.input.length then
      some (t.input.get ⟨t.pos, h⟩, { t with pos := t.pos + 1 })
    else none

/-- Result of one iteration of the `loop` in `Iterator::next`: a panic, a
`return Some(token)` with the updated tokenizer, or a `continue` (or
fall-through) into the next iteration carrying the updated tokenizer. -/
inductive IterResult where
  | panicked
  | emit (t : HtmlToken) (tk : HtmlTokenizer)
  | cont (tk : HtmlTokenizer)
deriving DecidableEq

/-- One iteration of the main loop of `Iterator::next` for
`HtmlTokenizer` (token.rs lines 169-465), translated state by state and
test by test in source order.  Three slips in the source are translated
by their evident intent, without which the source does not compile:
`take_latest_token` is missing its final `t` expression (modelled as
returning the recorded token after clearing `latest_token`), line 196
calls `self.is_ascii_alphabetic()` on the tokenizer (modelled as
`c.is_ascii_alphabetic()` as in the analogous line 216), and line 208
writes `state::Data` for `State::Data`. -/
def stepIter (tk : HtmlTokenizer) : IterResult :=
  match readChar tk with
  | none => IterResult.panicked
  | some (c, t) =>
    match t.state with
    | State.Data =>
      if c = '<' then IterResult.cont { t with state := State.TagOpen }
      else if t.is_eof then IterResult.emit HtmlToken.Eof t
      else IterResult.emit (HtmlToken.Char c) t
    | State.TagOpen =>
      if c = '/' then IterResult.cont { t with state := State.EndTagOpen }
      else if isAsciiAlphabetic c then
        IterResult.cont { t with reconsume := true, state := State.TagName,
                                 latest_token := some (createTag true) }
      else if t.is_eof then IterResult.emit HtmlToken.Eof t
      else IterResult.cont { t with reconsume := true, state := State.Data }
    | State.EndTagOpen =>
      if t.is_eof then IterResult.emit HtmlToken.Eof t
      else if isAsciiAlphabetic c then
        IterResult.cont { t with reconsume := true, state := State.TagName,
                                 latest_token := some (createTag false) }
      else IterResult.cont { t with reconsume := true, state := State.Data }
    | State.TagName =>
      if c = ' ' then IterResult.cont { t with state := State.BeforeAttributeName }
      else if c = '/' then IterResult.cont { t with state := State.SelfClosingStartTag }
      else if c = '>' then
        match t.latest_token with
        | none => IterResult.panicked
        | some tok => IterResult.emit tok { t with state := State.Data, latest_token := none }
      else if isAsciiUppercase c then
        match appendTagName (toAsciiLowercase c) t.latest_token with
        | none => IterResult.panicked
        | some lt => IterResult.cont { t with latest_token := some lt }
      else if t.is_eof then IterResult.emit HtmlToken.Eof t
      else
        match appendTagName c t.latest_token with
        | none => IterResult.panicked
        | some lt => IterResult.cont { t with latest_token := some lt }
    | State.BeforeAttributeName =>
      if c = '/' ∨ c = '>' ∨ t.is_eof then
        IterResult.cont { t with reconsume := true, state := State.AfterAttributeName }
      else
        match startNewAttribute t.latest_token with
        | none => IterResult.panicked
        | some lt =>
          IterResult.cont { t with reconsume := true, state := State.AttributeName,
                                   latest_token := some lt }
    | State.AttributeName =>
      if c = ' ' ∨ c = '/' ∨ c = '>' ∨ t.is_eof then
        IterResult.cont { t with reconsume := true, state := State.AfterAttributeName }
      else if c = '=' then IterResult.cont { t with state := State.BeforeAttributeValue }
      else if isAsciiUppercase c then
        match appendAttribute (toAsciiLowercase c) true t.latest_token with
        | none => IterResult.panicked
        | some lt => IterResult.cont { t with latest_token := some lt }
      else
        match appendAttribute c true t.latest_token with
        | none => IterResult.panicked
        | some lt => IterResult.cont { t with latest_token := some lt }
    | State.AfterAttributeName =>
      if c = ' ' then IterResult.cont t
      else if c = '/' then IterResult.cont { t with state := State.SelfClosingStartTag }
      else if c = '=' then IterResult.cont { t with state := State.BeforeAttributeValue }
      else if c = '>' then
        match t.latest_token with
        | none => IterResult.panicked
        | some tok => IterResult.emit tok { t with state := State.Data, latest_token := none }
      else if t.is_eof then IterResult.emit HtmlToken.Eof t
      else
        match startNewAttribute t.latest_token with
        | none => IterResult.panicked
        | some lt =>
          IterResult.cont { t with reconsume := true, state := State.AttributeName,
                                   latest_token := some lt }
    | State.BeforeAttributeValue =>
      if c = ' ' then IterResult.cont t
      else if c = '"' then IterResult.cont { t with state := State.AttributeValueDoubleQuoted }
      else if c = '\'' then IterResult.cont { t with state := State.AttributeValueSingleQuoted }
      else IterResult.cont { t with reconsume := true, state := State.AttributeValueUnquoted }
    | State.AttributeValueDoubleQuoted =>
      if c = '"' then IterResult.cont { t with state := State.AfterAttributeValueQuoted }
      else if t.is_eof then IterResult.emit HtmlToken.Eof t
      else
        match appendAttribute c false t.latest_token with
        | none => IterResult.panicked
        | some lt => IterResult.cont { t with latest_token := some lt }
    | State.AttributeValueSingleQuoted =>
      if c = '\'' then IterResult.cont { t with state := State.AfterAttributeValueQuoted }
      else if t.is_eof then IterResult.emit HtmlToken.Eof t
      else
        match appendAttribute c false t.latest_token with
        | none => IterResult.panicked
        | some lt => IterResult.cont { t with latest_token := some lt }
    | State.AttributeValueUnquoted =>
      if c = ' ' then IterResult.cont { t with state := State.BeforeAttributeName }
      else if c = '>' then IterResult.cont { t with state := State.Data }
      else if t.is_eof then IterResult.emit HtmlToken.Eof t
      else
        match appendAttribute c false t.latest_token with
        | none => IterResult.panicked
        | some lt => IterResult.cont { t with latest_token := some lt }
    | State.AfterAttributeValueQuoted =>
      if c = ' ' then IterResult.cont { t with state := State.BeforeAttributeName }
      else if c = '/' then IterResult.cont { t with state := State.SelfClosingStartTag }
      else if c = '>' then IterResult.cont { t with state := State.Data }
      else if t.is_eof then IterResult.emit HtmlToken.Eof t
      else IterResult.cont { t with reconsume := true, state := State.BeforeAttributeValue }
    | State.SelfClosingStartTag =>
      if c = '>' then
        match setSelfClosingFlag t.latest_token with
        | none => IterResult.panicked
        | some lt => IterResult.emit lt { t with state := State.Data, latest_token := none }
      else if t.is_eof then IterResult.emit HtmlToken.Eof t
      else IterResult.cont t
    | State.ScriptData =>
      if c = '<' then IterResult.cont { t with state := State.ScriptDataLessThanSign }
      else if t.is_eof then IterResult.emit HtmlToken.Eof t
      else IterResult.emit (HtmlToken.Char c) t
    | State.ScriptDataLessThanSign =>
      if c = '/' then
        IterResult.cont { t with buf := [], state := State.ScriptDataEndTagOpen }
      else
        IterResult.emit (HtmlToken.Char '<') { t with reconsume := true, state := State.ScriptData }
    | State.ScriptDataEndTagOpen =>
      if isAsciiAlphabetic c then
        IterResult.cont { t with reconsume := true, state := State.ScriptDataEndTagName,
                                 latest_token := some (createTag false) }
      else
        IterResult.emit (HtmlToken.Char '<') { t with reconsume := true, state := State.ScriptData }
    | State.ScriptDataEndTagName =>
      if c = '>' then
        match t.latest_token with
        | none => IterResult.panicked
        | some tok => IterResult.emit tok { t with state := State.Data, latest_token := none }
      else if isAsciiAlphabetic c then
        match appendTagName (toAsciiLowercase c) t.latest_token with
        | none => IterResult.panicked
        | some lt => IterResult.cont { t with buf := t.buf ++ [c], latest_token := some lt }
      else
        IterResult.cont { t with state := State.TemporaryBuffer,
                                 buf := ('<' :: '/' :: t.buf) ++ [c] }
    | State.TemporaryBuffer =>
      match t.buf with
      | [] => IterResult.cont { t with reconsume := true, state := State.ScriptData }
      | b :: rest =>
        IterResult.emit (HtmlToken.Char b) { t with reconsume := true, buf := rest }

/-- How a finite pull run ends: a Rust panic, fuel exhaustion of the
model (never the program), or the iterator returning `None`. -/
inductive Outcome where
  | panicked
  | outOfFuel
  | done
deriving DecidableEq

/-- The pull sequence: repeated calls of `Iterator::next`.  `inCall` is
false exactly at a call boundary, where `next` first returns `None` if
`pos >= input.len()`; inside a call the loop iterates via `stepIter`
without that check.  Each emitted token starts the next call.  The fuel
only bounds the model's recursion. -/
def runTk : Nat → Bool → HtmlTokenizer → List HtmlToken × Outcome
  | 0, _, _ => ([], Outcome.outOfFuel)
  | f + 1, inCall, tk =>
    if inCall = false ∧ tk.input.length ≤ tk.pos then ([], Outcome.done)
    else
      match stepIter tk with
      | IterResult.panicked => ([], Outcome.panicked)
      | IterResult.emit t tk2 =>
        let r := runTk f false tk2
        (t :: r.1, r.2)
      | IterResult.cont tk2 => runTk f true tk2

/-- All tokens produced by pulling `HtmlTokenizer::new(input)` until
`next` returns `None` (`Outcome.done`), a panic, or fuel runs out. -/
def tokenize (fuel : Nat) (input : List Char) : List HtmlToken × Outcome :=
  runTk fuel false (HtmlTokenizer.new input)

/-! ## Claims about the tokenizer's concrete behaviour -/

/-- No ASCII uppercase letter occurs in `l`. -/
def noUpper (l : List Char) : Bool :=
  l.all (fun c => !(isAsciiUppercase c))

/-- The tag name and all attribute names of the token avoid ASCII
uppercase letters. -/
def tokenNamesLower : HtmlToken → Bool
  | HtmlToken.StartTag tag _ attrs => noUpper tag && attrs.all (fun a => noUpper a.name)
  | HtmlToken.EndTag tag => noUpper tag
  | _ => true

/-- Every emitted token's tag/attribute names avoid uppercase letters. -/
def tokensNamesLower (ts : List HtmlToken) : Bool :=
  ts.all tokenNamesLower

/-- Names of the pending token avoid uppercase letters (trivially true
when no token is pending). -/
def pendingNamesLower : Option HtmlToken → Bool
  | none => true
  | some tok => tokenNamesLower tok

/-- The input position the next loop iteration reads: `pos - 1` under the
reconsume flag, else `pos`. -/
def readPos (t : HtmlTokenizer) : Nat :=
  if t.reconsume then t.pos - 1 else t.pos

/-- The states of the script (raw-text) sub-mode, unreachable from
`HtmlTokenizer::new` because nothing in this crate switches into them. -/
def plainState : State → Bool
  | State.ScriptData => false
  | State.ScriptDataLessThanSign => false
  | State.ScriptDataEndTagOpen => false
  | State.ScriptDataEndTagName => false
  | State.TemporaryBuffer => false
  | _ => true

/-- States in which an ASCII uppercase letter and its lowercase fold
drive exactly the same transition (everything reachable except the
states that embed the read character into a `Char` token or an attribute
value). -/
def caseInsensitiveOk : State → Bool
  | State.Data => false
  | State.AttributeValueDoubleQuoted => false
  | State.AttributeValueSingleQuoted => false
  | State.AttributeValueUnquoted => false
  | State.ScriptData => false
  | State.ScriptDataLessThanSign => false
  | State.ScriptDataEndTagOpen => false
  | State.ScriptDataEndTagName => false
  | State.TemporaryBuffer => false
  | _ => true

/-- Does this loop iteration append the character it reads (lowercased if
uppercase) to a tag or attribute name?  Mirrors the appending branches of
the `TagName` and `AttributeName` states of `stepIter`; the marked
position is the one the iteration reads. -/
def iterMark (tk : HtmlTokenizer) : Option Nat :=
  match readChar tk with
  | none => none
  | some (c, t) =>
    match t.state with
    | State.TagName =>
      if c = ' ' ∨ c = '/' ∨ c = '>' then none
      else if isAsciiUppercase c then some (readPos tk)
      else if t.is_eof then none
      else some (readPos tk)
    | State.AttributeName =>
      if c = ' ' ∨ c = '/' ∨ c = '>' ∨ t.is_eof then none
      else if c = '=' then none
      else some (readPos tk)
    | _ => none

/-- Every input position whose character the run appends to a tag or
attribute name (mirrors the recursion of `runTk`). -/
def runMarks : Nat → Bool → HtmlTokenizer → List Nat
  | 0, _, _ => []
  | f + 1, inCall, tk =>
    if inCall = false ∧ tk.input.length ≤ tk.pos then []
    else
      match stepIter tk with
      | IterResult.panicked => []
      | IterResult.emit _ tk2 => runMarks f false tk2
      | IterResult.cont tk2 => (iterMark tk).toList ++ runMarks f true tk2

/-- Lowercase the characters at positions `M` (offset by `i`). -/
def lowerFromAux (M : List Nat) : Nat → List Char → List Char
  | _, [] => []
  | i, c :: cs =>
    (if i ∈ M then toAsciiLowercase c else c) :: lowerFromAux M (i + 1) cs

/-- The input with the characters at the positions in `M` lowercased. -/
def lowerAt (M : List Nat) (s : List Char) : List Char :=
  lowerFromAux M 0 s

/-- The two tokenizers agree on everything except (possibly) the
characters of their inputs. -/
def FieldsEq (tk tk' : HtmlTokenizer) : Prop :=
  tk'.state = tk.state ∧ tk'.pos = tk.pos ∧ tk'.reconsume = tk.reconsume ∧
  tk'.latest_token = tk.latest_token ∧ tk'.buf = tk.buf ∧
  tk'.input.length = tk.input.length

/-- Proof-layer restatement of a loop iteration: what the iteration does,
abstracted away from the tokenizer record it acts on.  `stepIter` remains
the source-faithful definition; `stepIter_eq_apply` proves the
equivalence. -/
inductive StepAct where
  | panicAct
  | stay
  | toState (s : State)
  | reconsumeTo (s : State)
  | reconsumeToWith (s : State) (l : HtmlToken)
  | setLatest (l : HtmlToken)
  | emitTok (tok : HtmlToken)
  | emitEof
  | emitChar (ch : Char)
  | emitCharRe (ch : Char) (s : State)
  | toStateBuf (s : State) (b : List Char)
  | setLatestBuf (l : HtmlToken) (b : List Char)
  | emitCharBufRe (ch : Char) (b : List Char)
deriving DecidableEq

/-- Apply an abstract action to the post-read tokenizer. -/
def applyAct (t : HtmlTokenizer) : StepAct → IterResult
  | StepAct.panicAct => IterResult.panicked
  | StepAct.stay => IterResult.cont t
  | StepAct.toState s => IterResult.cont { t with state := s }
  | StepAct.reconsumeTo s => IterResult.cont { t with reconsume := true, state := s }
  | StepAct.reconsumeToWith s l =>
      IterResult.cont { t with reconsume := true, state := s, latest_token := some l }
  | StepAct.setLatest l => IterResult.cont { t with latest_token := some l }
  | StepAct.emitTok tok =>
      IterResult.emit tok { t with state := State.Data, latest_token := none }
  | StepAct.emitEof => IterResult.emit HtmlToken.Eof t
  | StepAct.emitChar ch => IterResult.emit (HtmlToken.Char ch) t
  | StepAct.emitCharRe ch s =>
      IterResult.emit (HtmlToken.Char ch) { t with reconsume := true, state := s }
  | StepAct.toStateBuf s b => IterResult.cont { t with state := s, buf := b }
  | StepAct.setLatestBuf l b =>
      IterResult.cont { t with buf := b, latest_token := some l }
  | StepAct.emitCharBufRe ch b =>
      IterResult.emit (HtmlToken.Char ch) { t with reconsume := true, buf := b }

/-- The action a loop iteration takes, as a function of the read
character and the parts of the tokenizer the branch tests inspect. -/
def act (c : Char) (st : State) (eof : Bool) (lt : Option HtmlToken)
    (bf : List Char) : StepAct :=
  match st with
  | State.Data =>
    if c = '<' then StepAct.toState State.TagOpen
    else if eof then StepAct.emitEof
    else StepAct.emitChar c
  | State.TagOpen =>
    if c = '/' then StepAct.toState State.EndTagOpen
    else if isAsciiAlphabetic c then
      StepAct.reconsumeToWith State.TagName (createTag true)
    else if eof then StepAct.emitEof
    else StepAct.reconsumeTo State.Data
  | State.EndTagOpen =>
    if eof then StepAct.emitEof
    else if isAsciiAlphabetic c then
      StepAct.reconsumeToWith State.TagName (createTag false)
    else StepAct.reconsumeTo State.Data
  | State.TagName =>
    if c = ' ' then StepAct.toState State.BeforeAttributeName
    else if c = '/' then StepAct.toState State.SelfClosingStartTag
    else if c = '>' then
      match lt with
      | none => StepAct.panicAct
      | some tok => StepAct.emitTok tok
    else if isAsciiUppercase c then
      match appendTagName (toAsciiLowercase c) lt with
      | none => StepAct.panicAct
      | some l => StepAct.setLatest l
    else if eof then StepAct.emitEof
    else
      match appendTagName c lt with
      | none => StepAct.panicAct
      | some l => StepAct.setLatest l
  | State.BeforeAttributeName =>
    if c = '/' ∨ c = '>' ∨ eof then StepAct.reconsumeTo State.AfterAttributeName
    else
      match startNewAttribute lt with
      | none => StepAct.panicAct
      | some l => StepAct.reconsumeToWith State.AttributeName l
  | State.AttributeName =>
    if c = ' ' ∨ c = '/' ∨ c = '>' ∨ eof then
      StepAct.reconsumeTo State.AfterAttributeName
    else if c = '=' then StepAct.toState State.BeforeAttributeValue
    else if isAsciiUppercase c then
      match appendAttribute (toAsciiLowercase c) true lt with
      | none => StepAct.panicAct
      | some l => StepAct.setLatest l
    else
      match appendAttribute c true lt with
      | none => StepAct.panicAct
      | some l => StepAct.setLatest l
  | State.AfterAttributeName =>
    if c = ' ' then StepAct.stay
    else if c = '/' then StepAct.toState State.SelfClosingStartTag
    else if c = '=' then StepAct.toState State.BeforeAttributeValue
    else if c = '>' then
      match lt with
      | none => StepAct.panicAct
      | some tok => StepAct.emitTok tok
    else if eof then StepAct.emitEof
    else
      match startNewAttribute lt with
      | none => StepAct.panicAct
      | some l => StepAct.reconsumeToWith State.AttributeName l
  | State.BeforeAttributeValue =>
    if c = ' ' then StepAct.stay
    else if c = '"' then StepAct.toState State.AttributeValueDoubleQuoted
    else if c = '\'' then StepAct.toState State.AttributeValueSingleQuoted
    else StepAct.reconsumeTo State.AttributeValueUnquoted
  | State.AttributeValueDoubleQuoted =>
    if c = '"' then StepAct.toState State.AfterAttributeValueQuoted
    else if eof then StepAct.emitEof
    else
      match appendAttribute c false lt with
      | none => StepAct.panicAct
      | some l => StepAct.setLatest l
  | State.AttributeValueSingleQuoted =>
    if c = '\'' then StepAct.toState State.AfterAttributeValueQuoted
    else if eof then StepAct.emitEof
    else
      match appendAttribute c false lt with
      | none => StepAct.panicAct
      | some l => StepAct.setLatest l
  | State.AttributeValueUnquoted =>
    if c = ' ' then StepAct.toState State.BeforeAttributeName
    else if c = '>' then StepAct.toState State.Data
    else if eof then StepAct.emitEof
    else
      match appendAttribute c false lt with
      | none => StepAct.panicAct
      | some l => StepAct.setLatest l
  | State.AfterAttributeValueQuoted =>
    if c = ' ' then StepAct.toState State.BeforeAttributeName
    else if c = '/' then StepAct.toState State.SelfClosingStartTag
    else if c = '>' then StepAct.toState State.Data
    else if eof then StepAct.emitEof
    else StepAct.reconsumeTo State.BeforeAttributeValue
  | State.SelfClosingStartTag =>
    if c = '>' then
      match setSelfClosingFlag lt with
      | none => StepAct.panicAct
      | some l => StepAct.emitTok l
    else if eof then StepAct.emitEof
    else StepAct.stay
  | State.ScriptData =>
    if c = '<' then StepAct.toState State.ScriptDataLessThanSign
    else if eof then StepAct.emitEof
    else StepAct.emitChar c
  | State.ScriptDataLessThanSign =>
    if c = '/' then StepAct.toStateBuf State.ScriptDataEndTagOpen []
    else StepAct.emitCharRe '<' State.ScriptData
  | State.ScriptDataEndTagOpen =>
    if isAsciiAlphabetic c then
      StepAct.reconsumeToWith State.ScriptDataEndTagName (createTag false)
    else StepAct.emitCharRe '<' State.ScriptData
  | State.ScriptDataEndTagName =>
    if c = '>' then
      match lt with
      | none => StepAct.panicAct
      | some tok => StepAct.emitTok tok
    else if isAsciiAlphabetic c then
      match appendTagName (toAsciiLowercase c) lt with
      | none => StepAct.panicAct
      | some l => StepAct.setLatestBuf l (bf ++ [c])
    else StepAct.toStateBuf State.TemporaryBuffer (('<' :: '/' :: bf) ++ [c])
  | State.TemporaryBuffer =>
    match bf with
    | [] => StepAct.reconsumeTo State.ScriptData
    | b :: rest => StepAct.emitCharBufRe b rest

/-- The bisimulation invariant for the lowercasing claim: equal fields, a
reachable (non-script) state, the cursor in bounds, and the primed input
agreeing with the original except for being lowercased exactly at the
positions the rest of the run will append to a name. -/
def Inv (f : Nat) (b : Bool) (tk tk' : HtmlTokenizer) : Prop :=
  FieldsEq tk tk' ∧ plainState tk.state = true ∧ tk.pos ≤ tk.input.length ∧
  ∀ i, readPos tk ≤ i →
    tk'.input[i]? =
      (if i ∈ runMarks f b tk then (tk.input[i]?).map toAsciiLowercase
       else tk.input[i]?)

/-- Claim C7: `Url::parse` on
`"http://example.com:8888/index.html?a=123&b=456"` returns `Ok` with host
`"example.com"`, port `"8888"`, path `"index.html"` and searchpart
`"a=123&b=456"`; and for every accepted URL whose port, path or query
component is absent (no `:` in the authority piece, no `/` after the
scheme, no `?` after the first `/`, respectively), the result has port
`"80"`, empty path and empty searchpart respectively. -/
theorem claim_C7_url_roundtrip_and_defaults :
    (Url.parse (Url.new ("http://example.com:8888/index.html?a=123&b=456".toList)) =
      Except.ok
        { url := "http://example.com:8888/index.html?a=123&b=456".toList
          host := "example.com".toList
          port := "8888".toList
          path := "index.html".toList
          searchpart := "a=123&b=456".toList }) ∧
    ∀ url u, Url.parse (Url.new url) = Except.ok u →
      (findChar ':' ((Url.new url).urlParts.headD []) = none →
        u.port = "80".toList) ∧
      ((Url.new url).urlParts.length < 2 → u.path = [] ∧ u.searchpart = []) ∧
      (2 ≤ (Url.new url).urlParts.length →
        (splitn2 '?' ((Url.new url).urlParts.getD 1 [])).length < 2 →
        u.searchpart = []) := by
  constructor
  · rfl
  · intro url u h
    by_cases hh : (Url.new url).is_http
    · simp only [Url.parse, hh, if_true, Except.ok.injEq] at h
      subst h
      refine ⟨fun hp => ?_, fun hp => ⟨?_, ?_⟩, fun hp hq => ?_⟩
      · simp only [Url.extract_port, List.headD] at hp ⊢
        rw [hp]
      · simp [Url.extract_path, hp]
      · simp [Url.extract_searchpart, hp]
      · simp only [Url.extract_searchpart, List.getD] at hq ⊢
        rw [if_neg (by omega), if_pos hq]
    · simp [Url.parse, hh] at h

/-- Witness for C7: `"http://example.com"` is accepted, has no `:`, no `/`
and no `?` after the scheme, and indeed gets port `"80"`, empty path and
empty searchpart. -/
theorem claim_C7_witness :
    ∃ u, Url.parse (Url.new ("http://example.com".toList)) = Except.ok u ∧
      u.port = "80".toList ∧ u.path = [] ∧ u.searchpart = [] := by
  have h := claim_C7_url_roundtrip_and_defaults.2 ("http://example.com".toList)
    { url := "http://example.com".toList
      host := "example.com".toList
      port := "80".toList
      path := []
      searchpart := [] } (by rfl)
  exact ⟨_, rfl, h.1 (by rfl), (h.2.1 (by decide)).1, (h.2.1 (by decide)).2⟩

/-- Claim C8 as stated is false: `Url::is_http` tests substring
containment, so `"ftp://a/?u=http://b"` — whose scheme is `ftp://`, not
`http://` — is accepted rather than rejected. -/
theorem claim_C8_counterexample :
    ("http://".toList).isPrefixOf ("ftp://a/?u=http://b".toList) = false ∧
    Url.parse (Url.new ("ftp://a/?u=http://b".toList)) =
      Except.ok
        { url := "ftp://a/?u=http://b".toList
          host := "ftp".toList
          port := []
          path := "/a/".toList
          searchpart := "u=http://b".toList } := by
  exact ⟨rfl, rfl⟩

/-- Claim C8, amended: for every input URL that does not contain the
substring `"http://"` anywhere (for example
`"https://example.com:8888/index.html?a=123&b=456"` or the scheme-less
`"example.com"`), `Url::parse` returns the recoverable error with the
fixed message `"Only HTTP scheme is supported."`. -/
theorem claim_C8_amended_scheme_rejection
    (url : List Char) (h : containsSeq ("http://".toList) url = false) :
    Url.parse (Url.new url) = Except.error ("Only HTTP scheme is supported.".toList) := by
  have hb : (Url.new url).is_http = false := h
  simp [Url.parse, hb]

/-- Witness for the amended C8 at the spec's two example inputs. -/
theorem claim_C8_amended_witness :
    Url.parse (Url.new ("example.com".toList)) =
      Except.error ("Only HTTP scheme is supported.".toList) ∧
    Url.parse (Url.new ("https://example.com:8888/index.html?a=123&b=456".toList)) =
      Except.error ("Only HTTP scheme is supported.".toList) :=
  ⟨claim_C8_amended_scheme_rejection _ (by decide),
   claim_C8_amended_scheme_rejection _ (by decide)⟩

/-- Claim C9: scheme acceptance is substring containment rather than a
prefix test — the input `"ftp://a/?u=http://b"` does not start with
`"http://"` (its scheme is `ftp://`) yet contains `"http://"` later, and
`Url::parse` returns `Ok` on it instead of the scheme-rejection error. -/
theorem claim_C9_contains_not_prefix :
    ("http://".toList).isPrefixOf ("ftp://a/?u=http://b".toList) = false ∧
    containsSeq ("http://".toList) ("ftp://a/?u=http://b".toList) = true ∧
    (Url.parse (Url.new ("ftp://a/?u=http://b".toList))).isOk = true := by
  refine ⟨rfl, rfl, rfl⟩

/-! ## `http.rs`: the HTTP response parser -/

/-- Claim C6: a preprocessed response with no line break is rejected with
a recoverable error whose message carries the offending text; and every
response whose status line has fewer than three space-separated pieces
drives the unguarded status-line indexing (or the earlier header
indexing) into a panic rather than an error return. -/
theorem claim_C6_http_rejection_and_status_oob :
    (∀ raw, splitOnceChar '\n' (replaceSeq ("\n\r".toList) ("\n".toList) (trimStart raw)) = none →
      HttpResponse.new raw =
        RustOutcome.err (Error.Network (("invalid http response: ".toList) ++
          replaceSeq ("\n\r".toList) ("\n".toList) (trimStart raw)))) ∧
    (∀ raw status_line remaining,
      splitOnceChar '\n' (replaceSeq ("\n\r".toList) ("\n".toList) (trimStart raw)) =
        some (status_line, remaining) →
      (splitAllChar ' ' status_line).length < 3 →
      HttpResponse.new raw = RustOutcome.panicked) := by
  constructor
  · intro raw h
    simp only [HttpResponse.new, h]
  · intro raw status_line remaining hsplit hlen
    simp only [HttpResponse.new, hsplit]
    cases hsq : splitOnceSeq ("\n\n".toList) remaining with
    | none =>
      simp only [hsq]
      cases h0 : (splitAllChar ' ' status_line)[0]? with
      | none => simp [h0]
      | some v =>
        cases h1 : (splitAllChar ' ' status_line)[1]? with
        | none => simp [h0, h1]
        | some s =>
          have h2 : (splitAllChar ' ' status_line)[2]? = none := by
            rw [List.getElem?_eq_none]
            omega
          simp [h0, h1, h2]
    | some hb =>
      obtain ⟨h, b⟩ := hb
      simp only [hsq]
      cases hph : parseHeaders (splitAllChar '\n' h) with
      | none => simp [hph]
      | some headers =>
        simp only [Option.map_some']
        cases h0 : (splitAllChar ' ' status_line)[0]? with
        | none => simp [h0]
        | some v =>
          cases h1 : (splitAllChar ' ' status_line)[1]? with
          | none => simp [h0, h1]
          | some s =>
            have h2 : (splitAllChar ' ' status_line)[2]? = none := by
              rw [List.getElem?_eq_none]
              omega
            simp [h0, h1, h2]

/-- Witness for C6: `"abc"` has no line break and is rejected with the
message naming it; `"HTTP/1.1 200\n\n"` has a two-piece status line and
panics. -/
theorem claim_C6_witness :
    HttpResponse.new ("abc".toList) =
      RustOutcome.err (Error.Network (("invalid http response: ".toList) ++ "abc".toList)) ∧
    HttpResponse.new ("HTTP/1.1 200\n\n".toList) = RustOutcome.panicked := by
  constructor
  · have := claim_C6_http_rejection_and_status_oob.1 ("abc".toList) (by rfl)
    simpa using this
  · exact claim_C6_http_rejection_and_status_oob.2 ("HTTP/1.1 200\n\n".toList)
      ("HTTP/1.1 200".toList) ("\n".toList) (by rfl) (by decide)

/-- Claim C10: a response whose header block contains a line with no
colon makes `HttpResponse::new` index past the end of the colon-split
parts and panic, while the same response with a colon in that line
parses fine — the panic comes from the colon-less header line. -/
theorem claim_C10_header_without_colon_panics :
    HttpResponse.new ("HTTP/1.1 200 OK\nBadHeader\n\nbody".toList) =
      RustOutcome.panicked ∧
    HttpResponse.new ("HTTP/1.1 200 OK\nGood: v\n\nbody".toList) =
      RustOutcome.ok
        { version := "HTTP/1.1".toList, status_code := 200,
          reason := "OK".toList,
          headers := [{ name := "Good".toList, value := "v".toList }],
          body := "body".toList } := by
  exact ⟨by rfl, by rfl⟩

/-! ## `renderer/html/attribute.rs`: the `Attribute` builder -/

/-- Claim C1 as stated is false: tokenizing `"<a></a>"` yields the
StartTag and EndTag and then the iterator returns `None`; no `Eof` token
is ever produced (`is_eof` demands `pos > input.len()`, but `next`
already returns `None` once `pos >= input.len()`). -/
theorem claim_C1_counterexample :
    tokenize 100 ("<a></a>".toList) =
      ([HtmlToken.StartTag ("a".toList) false [], HtmlToken.EndTag ("a".toList)],
       Outcome.done) ∧
    HtmlToken.Eof ∉ (tokenize 100 ("<a></a>".toList)).1 := by
  exact ⟨by rfl, by decide⟩

/-- Claim C1, amended: tokenizing `"<a></a>"` yields exactly
`[StartTag{tag:"a", self_closing:false, attributes:[]}, EndTag{tag:"a"}]`
and the pull sequence then terminates with `next` returning `None` — no
`EndOfInput` token is produced. -/
theorem claim_C1_amended_token_sequence :
    tokenize 100 ("<a></a>".toList) =
      ([HtmlToken.StartTag ("a".toList) false [], HtmlToken.EndTag ("a".toList)],
       Outcome.done) := by
  rfl

/-- Claim C2 is right about the intent but the code panics: pulling
tokens for `"a<b"` emits `Char('a')` and then the second `next` call
panics — after consuming `b` in TagName state, `is_eof` (which requires
`pos > len`, an off-by-one) stays false at `pos = len`, so the loop calls
`consume_next_input` again and `input[3]` indexes out of bounds. -/
theorem claim_C2_malformed_input_panics :
    tokenize 100 ("a<b".toList) = ([HtmlToken.Char 'a'], Outcome.panicked) := by
  rfl

/-- Claim C3: in AttributeValueUnquoted and AfterAttributeValueQuoted,
consuming `>` only moves the automaton to Data — the iteration continues
without emitting, and the pending token is untouched (the conclusion's
tokenizer keeps every field of `tk` but `pos` and `state`). -/
theorem claim_C3_gt_changes_state_without_emit (tk : HtmlTokenizer)
    (hs : tk.state = State.AttributeValueUnquoted ∨
          tk.state = State.AfterAttributeValueQuoted)
    (hr : tk.reconsume = false)
    (hp : tk.pos < tk.input.length)
    (hc : tk.input.get ⟨tk.pos, hp⟩ = '>') :
    stepIter tk = IterResult.cont { tk with pos := tk.pos + 1, state := State.Data } := by
  have hread : readChar tk = some ('>', { tk with pos := tk.pos + 1 }) := by
    rw [readChar, if_neg (by rw [hr]; simp), dif_pos hp, hc]
  rcases hs with h1 | h1 <;> simp [stepIter, hread, h1]

/-- Witness for C3 in the AttributeValueUnquoted state with input `">"`. -/
theorem claim_C3_witness :
    stepIter
      { state := State.AttributeValueUnquoted, pos := 0, reconsume := false,
        latest_token := some (HtmlToken.StartTag ("a".toList) false []),
        input := ['>'], buf := [] } =
      IterResult.cont
        { state := State.Data, pos := 1, reconsume := false,
          latest_token := some (HtmlToken.StartTag ("a".toList) false []),
          input := ['>'], buf := [] } := by
  exact claim_C3_gt_changes_state_without_emit
    { state := State.AttributeValueUnquoted, pos := 0, reconsume := false,
      latest_token := some (HtmlToken.StartTag ("a".toList) false []),
      input := ['>'], buf := [] }
    (Or.inl rfl) rfl (by decide) (by decide)

/-! ## Character facts for the lowercasing claim -/

/-- Comparison of characters is comparison of their code points. -/
theorem charLe_toNat (a b : Char) : a ≤ b ↔ a.toNat ≤ b.toNat := by
  rw [Char.le_def, UInt32.le_def, BitVec.le_def]
  exact Iff.rfl

/-- Equality of characters is equality of their code points. -/
theorem charEq_toNat (a b : Char) : a = b ↔ a.toNat = b.toNat := by
  rw [Char.ext_iff]
  constructor
  · intro h
    rw [show a.toNat = a.val.toBitVec.toNat from rfl, h]
    rfl
  · intro h
    exact UInt32.ext h

/-- Code point of `Char.ofNat` below the surrogate range. -/
theorem toNat_charOfNat (n : Nat) (h : n < 55296) : (Char.ofNat n).toNat = n := by
  rw [Char.ofNat, dif_pos (Or.inl h)]
  rfl

theorem isAsciiUppercase_iff (c : Char) :
    isAsciiUppercase c = true ↔ 65 ≤ c.toNat ∧ c.toNat ≤ 90 := by
  simp only [isAsciiUppercase, Bool.and_eq_true, decide_eq_true_eq,
    charLe_toNat]
  exact Iff.rfl

theorem isAsciiAlphabetic_iff (c : Char) :
    isAsciiAlphabetic c = true ↔
      (65 ≤ c.toNat ∧ c.toNat ≤ 90) ∨ (97 ≤ c.toNat ∧ c.toNat ≤ 122) := by
  simp only [isAsciiAlphabetic, Bool.or_eq_true, Bool.and_eq_true,
    decide_eq_true_eq, charLe_toNat]
  exact Iff.rfl

theorem toAsciiLowercase_of_not_upper {c : Char}
    (h : isAsciiUppercase c = false) : toAsciiLowercase c = c := by
  rw [toAsciiLowercase, h]
  simp

theorem toNat_toAsciiLowercase {c : Char} (h : isAsciiUppercase c = true) :
    (toAsciiLowercase c).toNat = c.toNat + 32 := by
  have hb := (isAsciiUppercase_iff c).mp h
  rw [toAsciiLowercase, h, if_pos rfl, toNat_charOfNat _ (by omega)]

theorem not_upper_toAsciiLowercase {c : Char} (h : isAsciiUppercase c = true) :
    isAsciiUppercase (toAsciiLowercase c) = false := by
  have hb := (isAsciiUppercase_iff c).mp h
  have ht := toNat_toAsciiLowercase h
  rw [Bool.eq_false_iff]
  intro hcon
  have := (isAsciiUppercase_iff _).mp hcon
  omega

theorem alpha_toAsciiLowercase {c : Char} (h : isAsciiUppercase c = true) :
    isAsciiAlphabetic (toAsciiLowercase c) = true := by
  have hb := (isAsciiUppercase_iff c).mp h
  have ht := toNat_toAsciiLowercase h
  rw [isAsciiAlphabetic_iff]
  omega

theorem upper_alpha {c : Char} (h : isAsciiUppercase c = true) :
    isAsciiAlphabetic c = true := by
  have hb := (isAsciiUppercase_iff c).mp h
  rw [isAsciiAlphabetic_iff]
  omega

/-- An uppercase letter differs from every character outside `[65, 90]`. -/
theorem upper_ne {c : Char} (h : isAsciiUppercase c = true) (d : Char)
    (hd : d.toNat < 65 ∨ 90 < d.toNat) : c ≠ d := by
  have hb := (isAsciiUppercase_iff c).mp h
  rw [Ne, charEq_toNat]
  omega

/-- The lowercase fold of an uppercase letter differs from every
character outside `[97, 122]`. -/
theorem toLower_ne {c : Char} (h : isAsciiUppercase c = true) (d : Char)
    (hd : d.toNat < 97 ∨ 122 < d.toNat) : toAsciiLowercase c ≠ d := by
  have hb := (isAsciiUppercase_iff c).mp h
  have ht := toNat_toAsciiLowercase h
  rw [Ne, charEq_toNat]
  omega

/-! ## Claim C5: instrumentation (name positions, lowercased input) -/

/-- Structure of a successful read: only `pos`/`reconsume` change, the
read is at `readPos`, and the flag is clear afterwards. -/
theorem readChar_some {tk : HtmlTokenizer} {c : Char} {t : HtmlTokenizer}
    (h : readChar tk = some (c, t)) :
    t.state = tk.state ∧ t.latest_token = tk.latest_token ∧ t.buf = tk.buf ∧
    t.input = tk.input ∧ t.reconsume = false ∧
    t.pos = (if tk.reconsume then tk.pos else tk.pos + 1) ∧
    t.pos = readPos tk + 1 ∧ t.pos ≤ tk.input.length ∧
    ∃ hp : readPos tk < tk.input.length,
      c = tk.input.get ⟨readPos tk, hp⟩ := by
  cases hb : tk.reconsume with
  | false =>
    rw [readChar, hb] at h
    simp only [Bool.false_eq_true, if_false] at h
    split at h
    · rename_i hcond
      have hpair := Option.some.inj h
      injection hpair with hc ht
      subst ht
      have hrp : readPos tk = tk.pos := by simp [readPos, hb]
      refine ⟨rfl, rfl, rfl, rfl, rfl, by simp [hb], by rw [hrp],
        by show tk.pos + 1 ≤ tk.input.length; omega,
        ⟨by rw [hrp]; exact hcond, ?_⟩⟩
      simp only [hrp]
      exact hc.symm
    · exact absurd h (by simp)
  | true =>
    rw [readChar, hb] at h
    simp only [if_true] at h
    split at h
    · rename_i hcond
      have hpair := Option.some.inj h
      injection hpair with hc ht
      subst ht
      have hrp : readPos tk = tk.pos - 1 := by simp [readPos, hb]
      obtain ⟨hc1, hc2⟩ := hcond
      refine ⟨rfl, rfl, rfl, rfl, rfl, by simp [hb],
        by rw [hrp]; show tk.pos = tk.pos - 1 + 1; omega,
        by show tk.pos ≤ tk.input.length; omega,
        ⟨by rw [hrp]; exact hc2, ?_⟩⟩
      simp only [hrp]
      exact hc.symm
    · exact absurd h (by simp)

/-- Two tokenizers with the same cursor, flag and input length either
both fail to read or both read (possibly different characters). -/
theorem readChar_pair {tk tk' : HtmlTokenizer} (hrec : tk'.reconsume = tk.reconsume)
    (hpos : tk'.pos = tk.pos) (hlen : tk'.input.length = tk.input.length) :
    (readChar tk = none ∧ readChar tk' = none) ∨
    (∃ c t c' t', readChar tk = some (c, t) ∧ readChar tk' = some (c', t')) := by
  rw [readChar, readChar, hrec]
  cases hb : tk.reconsume with
  | true =>
    simp only [eq_self_iff_true, if_true]
    by_cases hc : 1 ≤ tk.pos ∧ tk.pos - 1 < tk.input.length
    · have hc' : 1 ≤ tk'.pos ∧ tk'.pos - 1 < tk'.input.length := by
        rw [hpos, hlen]
        exact hc
      rw [dif_pos hc, dif_pos hc']
      exact Or.inr ⟨_, _, _, _, rfl, rfl⟩
    · have hc' : ¬ (1 ≤ tk'.pos ∧ tk'.pos - 1 < tk'.input.length) := by
        rw [hpos, hlen]
        exact hc
      rw [dif_neg hc, dif_neg hc']
      exact Or.inl ⟨rfl, rfl⟩
  | false =>
    simp only [Bool.false_eq_true, if_false]
    by_cases hc : tk.pos < tk.input.length
    · have hc' : tk'.pos < tk'.input.length := by
        rw [hpos, hlen]
        exact hc
      rw [dif_pos hc, dif_pos hc']
      exact Or.inr ⟨_, _, _, _, rfl, rfl⟩
    · have hc' : ¬ tk'.pos < tk'.input.length := by
        rw [hpos, hlen]
        exact hc
      rw [dif_neg hc, dif_neg hc']
      exact Or.inl ⟨rfl, rfl⟩

/-- Shape of a loop iteration's successor: `pos` and `input` come from
the read; in the reachable (non-script) states an emitted token leaves
the reconsume flag clear, plainness is preserved, and a `continue` that
sets the reconsume flag only happens in case-insensitive states. -/
theorem step_shape {tk : HtmlTokenizer} {c : Char} {t : HtmlTokenizer}
    (hr : readChar tk = some (c, t)) :
    (∀ tok tk2, stepIter tk = IterResult.emit tok tk2 →
      tk2.pos = t.pos ∧ tk2.input = tk.input ∧
      (plainState tk.state = true →
        tk2.reconsume = false ∧ plainState tk2.state = true)) ∧
    (∀ tk2, stepIter tk = IterResult.cont tk2 →
      tk2.pos = t.pos ∧ tk2.input = tk.input ∧
      (plainState tk.state = true → plainState tk2.state = true ∧
        (tk2.reconsume = true →
          caseInsensitiveOk tk.state = true ∧ iterMark tk = none))) := by
  obtain ⟨hst, hlt, hbuf, hin, hrec, -, -, -, -⟩ := readChar_some hr
  constructor
  · intro tok tk2 hstep
    simp only [stepIter, hr] at hstep
    rw [hst] at hstep
    cases hsu : tk.state <;> simp only [hsu] at hstep <;>
      (repeat' split at hstep) <;>
      first
      | (injection hstep with h1 h2
         subst h1
         subst h2
         refine ⟨rfl, hin, fun hpl => ?_⟩
         constructor <;> simp_all [plainState, caseInsensitiveOk])
      | injection hstep
  · intro tk2 hstep
    simp only [stepIter, hr] at hstep
    rw [hst] at hstep
    cases hsu : tk.state <;> simp only [hsu] at hstep <;>
      (repeat' split at hstep) <;>
      first
      | (injection hstep with h1
         subst h1
         refine ⟨rfl, hin, fun hpl => ?_⟩
         constructor <;> simp_all [plainState, caseInsensitiveOk, iterMark])
      | injection hstep

/-- A marked position is the position the iteration reads, and marking
only happens in the TagName/AttributeName states. -/
theorem iterMark_some_facts {tk : HtmlTokenizer} {q : Nat}
    (h : iterMark tk = some q) :
    q = readPos tk ∧ ∃ c t, readChar tk = some (c, t) ∧
      (t.state = State.TagName ∨ t.state = State.AttributeName) := by
  cases hrc : readChar tk with
  | none =>
    simp only [iterMark, hrc] at h
    exact absurd h (by simp)
  | some ct =>
    obtain ⟨c, t⟩ := ct
    simp only [iterMark, hrc] at h
    cases hsu : t.state <;> simp only [hsu] at h <;>
      (repeat' split at h) <;>
      first
      | (injection h with h1
         exact ⟨h1.symm, c, t, rfl, by rw [hsu]; simp⟩)
      | injection h

/-- The read position is within one of the cursor. -/
theorem readPos_bounds (t : HtmlTokenizer) :
    t.pos - 1 ≤ readPos t ∧ readPos t ≤ t.pos := by
  rw [readPos]
  split <;> omega

/-- Every position a run marks lies at or beyond the current read
position (the cursor never moves backwards). -/
theorem marks_ge :
    ∀ (f : Nat) (b : Bool) (tk : HtmlTokenizer) (m : Nat),
      m ∈ runMarks f b tk → readPos tk ≤ m := by
  intro f
  induction f with
  | zero => intro b tk m hm; simp [runMarks] at hm
  | succ f ih =>
    intro b tk m hm
    rw [runMarks] at hm
    split at hm
    · simp at hm
    · cases hrc : readChar tk with
      | none =>
        rw [show stepIter tk = IterResult.panicked by rw [stepIter, hrc]] at hm
        simp at hm
      | some ct =>
        obtain ⟨c, t⟩ := ct
        obtain ⟨-, -, -, -, -, -, hrpt, -, -⟩ := readChar_some hrc
        cases hstep : stepIter tk with
        | panicked => rw [hstep] at hm; simp at hm
        | emit tok tk2 =>
          rw [hstep] at hm
          obtain ⟨hp2, -, -⟩ := (step_shape hrc).1 tok tk2 hstep
          have hle := ih false tk2 m hm
          have hb2 := readPos_bounds tk2
          omega
        | cont tk2 =>
          rw [hstep] at hm
          rw [List.mem_append] at hm
          rcases hm with hm | hm
          · cases him : iterMark tk with
            | none => rw [him] at hm; simp at hm
            | some q =>
              rw [him] at hm
              simp only [Option.toList, List.mem_singleton] at hm
              subst hm
              exact (iterMark_some_facts him).1.symm ▸ Nat.le_refl _
          · obtain ⟨hp2, -, -⟩ := (step_shape hrc).2 tk2 hstep
            have hle := ih true tk2 m hm
            have hb2 := readPos_bounds tk2
            omega

/-- Each loop iteration is the application of its abstract action. -/
theorem stepIter_eq_apply {tk : HtmlTokenizer} {c : Char} {t : HtmlTokenizer}
    (hr : readChar tk = some (c, t)) :
    stepIter tk = applyAct t (act c t.state t.is_eof t.latest_token t.buf) := by
  cases hsu : t.state <;>
    simp only [stepIter, hr, act, hsu] <;>
    (repeat' split) <;>
    first
    | rfl
    | simp_all [applyAct]

/-- Applying the same action to two tokenizers that agree on all fields
but the input text gives mirrored results. -/
theorem applyAct_rel {t t' : HtmlTokenizer} (a : StepAct) (h : FieldsEq t t') :
    (applyAct t a = IterResult.panicked ∧ applyAct t' a = IterResult.panicked) ∨
    (∃ tok tk2 tk2', applyAct t a = IterResult.emit tok tk2 ∧
      applyAct t' a = IterResult.emit tok tk2' ∧ FieldsEq tk2 tk2' ∧
      tk2.input = t.input ∧ tk2'.input = t'.input) ∨
    (∃ tk2 tk2', applyAct t a = IterResult.cont tk2 ∧
      applyAct t' a = IterResult.cont tk2' ∧ FieldsEq tk2 tk2' ∧
      tk2.input = t.input ∧ tk2'.input = t'.input) := by
  obtain ⟨h1, h2, h3, h4, h5, h6⟩ := h
  cases a <;>
    first
    | exact Or.inl ⟨rfl, rfl⟩
    | (refine Or.inr (Or.inl ⟨_, _, _, rfl, rfl, ⟨?_, ?_, ?_, ?_, ?_, ?_⟩, rfl, rfl⟩) <;>
        simp_all)
    | (refine Or.inr (Or.inr ⟨_, _, rfl, rfl, ⟨?_, ?_, ?_, ?_, ?_, ?_⟩, rfl, rfl⟩) <;>
        simp_all)

/-- After a successful read with the cursor in bounds, the off-by-one
`is_eof` is false. -/
theorem readChar_eof_false {tk : HtmlTokenizer} {c : Char} {t : HtmlTokenizer}
    (hr : readChar tk = some (c, t)) : t.is_eof = false := by
  obtain ⟨-, -, -, hin, -, -, -, hple, -⟩ := readChar_some hr
  have hnot : ¬ (t.input.length < t.pos) := by
    rw [hin]
    omega
  simp only [HtmlTokenizer.is_eof, gt_iff_lt]
  exact decide_eq_false hnot

/-- In the case-insensitive states an uppercase letter and its lowercase
fold select the same action (away from end of input). -/
theorem act_fold {c : Char} (hU : isAsciiUppercase c = true) {st : State}
    (hok : caseInsensitiveOk st = true) (lt : Option HtmlToken)
    (bf : List Char) :
    act (toAsciiLowercase c) st false lt bf = act c st false lt bf := by
  have hnu := not_upper_toAsciiLowercase hU
  have hal := upper_alpha hU
  have hal2 := alpha_toAsciiLowercase hU
  have hne : ∀ d : Char, d.toNat < 65 ∨ 90 < d.toNat → ¬ (c = d) := upper_ne hU
  have hlo : ∀ d : Char, d.toNat < 97 ∨ 122 < d.toNat → ¬ (toAsciiLowercase c = d) :=
    toLower_ne hU
  have hnuP : ¬ isAsciiUppercase (toAsciiLowercase c) = true := by
    rw [hnu]
    exact Bool.false_ne_true
  have hFne : ¬ (false : Bool) = true := Bool.false_ne_true
  cases st <;> simp only [caseInsensitiveOk] at hok <;>
    try exact absurd hok Bool.false_ne_true
  case TagOpen =>
    simp only [act]
    rw [if_neg (hlo '/' (by decide)), if_neg (hne '/' (by decide)),
      if_pos hal2, if_pos hal]
  case EndTagOpen =>
    simp only [act]
    rw [if_neg hFne, if_neg hFne, if_pos hal2, if_pos hal]
  case TagName =>
    simp only [act]
    rw [if_neg (hlo ' ' (by decide)), if_neg (hne ' ' (by decide)),
      if_neg (hlo '/' (by decide)), if_neg (hne '/' (by decide)),
      if_neg (hlo '>' (by decide)), if_neg (hne '>' (by decide)),
      if_neg hnuP, if_pos hU, if_neg hFne]
  case BeforeAttributeName =>
    have hA : ¬ (toAsciiLowercase c = '/' ∨ toAsciiLowercase c = '>' ∨ (false : Bool) = true) := by
      rintro (h | h | h)
      · exact hlo '/' (by decide) h
      · exact hlo '>' (by decide) h
      · exact hFne h
    have hB : ¬ (c = '/' ∨ c = '>' ∨ (false : Bool) = true) := by
      rintro (h | h | h)
      · exact hne '/' (by decide) h
      · exact hne '>' (by decide) h
      · exact hFne h
    simp only [act]
    rw [if_neg hA, if_neg hB]
  case AttributeName =>
    have hA : ¬ (toAsciiLowercase c = ' ' ∨ toAsciiLowercase c = '/' ∨
        toAsciiLowercase c = '>' ∨ (false : Bool) = true) := by
      rintro (h | h | h | h)
      · exact hlo ' ' (by decide) h
      · exact hlo '/' (by decide) h
      · exact hlo '>' (by decide) h
      · exact hFne h
    have hB : ¬ (c = ' ' ∨ c = '/' ∨ c = '>' ∨ (false : Bool) = true) := by
      rintro (h | h | h | h)
      · exact hne ' ' (by decide) h
      · exact hne '/' (by decide) h
      · exact hne '>' (by decide) h
      · exact hFne h
    simp only [act]
    rw [if_neg hA, if_neg hB, if_neg (hlo '=' (by decide)),
      if_neg (hne '=' (by decide)), if_neg hnuP, if_pos hU]
  case AfterAttributeName =>
    simp only [act]
    rw [if_neg (hlo ' ' (by decide)), if_neg (hne ' ' (by decide)),
      if_neg (hlo '/' (by decide)), if_neg (hne '/' (by decide)),
      if_neg (hlo '=' (by decide)), if_neg (hne '=' (by decide)),
      if_neg (hlo '>' (by decide)), if_neg (hne '>' (by decide))]
  case BeforeAttributeValue =>
    simp only [act]
    rw [if_neg (hlo ' ' (by decide)), if_neg (hne ' ' (by decide)),
      if_neg (hlo '"' (by decide)), if_neg (hne '"' (by decide)),
      if_neg (hlo '\'' (by decide)), if_neg (hne '\'' (by decide))]
  case AfterAttributeValueQuoted =>
    simp only [act]
    rw [if_neg (hlo ' ' (by decide)), if_neg (hne ' ' (by decide)),
      if_neg (hlo '/' (by decide)), if_neg (hne '/' (by decide)),
      if_neg (hlo '>' (by decide)), if_neg (hne '>' (by decide))]
  case SelfClosingStartTag =>
    simp only [act]
    rw [if_neg (hlo '>' (by decide)), if_neg (hne '>' (by decide))]

/-- Two tokenizers with equal fields that read related characters (equal,
or an uppercase letter and its fold in a case-insensitive state) step in
lockstep: both panic, or both emit the same token, or both continue, with
fields staying equal and inputs untouched. -/
theorem step_congr {tk tk' : HtmlTokenizer} {c c' : Char} {t t' : HtmlTokenizer}
    (hfe : FieldsEq tk tk')
    (hr : readChar tk = some (c, t)) (hr' : readChar tk' = some (c', t'))
    (hcc : c' = c ∨ (isAsciiUppercase c = true ∧ c' = toAsciiLowercase c ∧
      caseInsensitiveOk tk.state = true)) :
    (stepIter tk = IterResult.panicked ∧ stepIter tk' = IterResult.panicked) ∨
    (∃ tok tk2 tk2', stepIter tk = IterResult.emit tok tk2 ∧
      stepIter tk' = IterResult.emit tok tk2' ∧ FieldsEq tk2 tk2' ∧
      tk2.input = tk.input ∧ tk2'.input = tk'.input) ∨
    (∃ tk2 tk2', stepIter tk = IterResult.cont tk2 ∧
      stepIter tk' = IterResult.cont tk2' ∧ FieldsEq tk2 tk2' ∧
      tk2.input = tk.input ∧ tk2'.input = tk'.input) := by
  obtain ⟨Fst, Fpos, Frec, Flat, Fbuf, Flen⟩ := hfe
  obtain ⟨hst, hlt, hbuf, hin, hrec, hposif, -, -, -⟩ := readChar_some hr
  obtain ⟨hst', hlt', hbuf', hin', hrec', hposif', -, -, -⟩ := readChar_some hr'
  have hstate2 : t'.state = t.state := by rw [hst', hst, Fst]
  have hpos2 : t'.pos = t.pos := by rw [hposif, hposif', Frec, Fpos]
  have hlat2 : t'.latest_token = t.latest_token := by rw [hlt, hlt', Flat]
  have hbuf2 : t'.buf = t.buf := by rw [hbuf, hbuf', Fbuf]
  have hlen2 : t'.input.length = t.input.length := by rw [hin, hin', Flen]
  have hrec2 : t'.reconsume = t.reconsume := by rw [hrec, hrec']
  have heof2 : t'.is_eof = t.is_eof := by
    simp only [HtmlTokenizer.is_eof, hpos2, hlen2]
  have hFE : FieldsEq t t' := ⟨hstate2, hpos2, hrec2, hlat2, hbuf2, hlen2⟩
  have e := stepIter_eq_apply hr
  have e' := stepIter_eq_apply hr'
  rcases hcc with rfl | ⟨hU, hcl, hok⟩
  · rw [e, e', hstate2, heof2, hlat2, hbuf2, ← hin, ← hin']
    exact applyAct_rel _ hFE
  · have heofF : t.is_eof = false := readChar_eof_false hr
    have heofF' : t'.is_eof = false := by rw [heof2, heofF]
    subst hcl
    rw [e, e', hstate2, heofF, heofF', hlat2, hbuf2, hst, act_fold hU hok,
      ← hin, ← hin']
    exact applyAct_rel _ hFE

/-- One step of the bisimulation: under the invariant, the two runs
panic together, emit the same token, or continue together, and the
invariant carries to the successors. -/
theorem step_bisim (f : Nat) (b : Bool) (tk tk' : HtmlTokenizer)
    (hInv : Inv (f + 1) b tk tk')
    (hTop : ¬ (b = false ∧ tk.input.length ≤ tk.pos)) :
    (stepIter tk = IterResult.panicked ∧ stepIter tk' = IterResult.panicked) ∨
    (∃ tok tk2 tk2', stepIter tk = IterResult.emit tok tk2 ∧
       stepIter tk' = IterResult.emit tok tk2' ∧ Inv f false tk2 tk2') ∨
    (∃ tk2 tk2', stepIter tk = IterResult.cont tk2 ∧
       stepIter tk' = IterResult.cont tk2' ∧ Inv f true tk2 tk2') := by
  obtain ⟨hfe, hplain, hple, hinp⟩ := hInv
  obtain ⟨Fst, Fpos, Frec, Flat, Fbuf, Flen⟩ := hfe
  rcases readChar_pair Frec Fpos Flen with ⟨hrc, hrc'⟩ | ⟨c, t, c', t', hrc, hrc'⟩
  · left
    constructor
    · simp only [stepIter, hrc]
    · simp only [stepIter, hrc']
  · obtain ⟨hst, hlt, hbuf, hin, hrec0, hposif, hpsucc, hplen, ⟨hplim, hcval⟩⟩ :=
      readChar_some hrc
    obtain ⟨hst', hlt', hbuf', hin', hrec0', hposif', hpsucc', hplen', ⟨hplim', hcval'⟩⟩ :=
      readChar_some hrc'
    have hrpeq : readPos tk' = readPos tk := by rw [readPos, readPos, Frec, Fpos]
    have hcg : tk.input[readPos tk]? = some c := by
      rw [hcval, List.get_eq_getElem]
      exact List.getElem?_eq_getElem hplim
    have hb' : readPos tk < tk'.input.length := by
      rw [Flen]
      exact hplim
    have hcg'0 : tk'.input[readPos tk']? = some c' := by
      rw [hcval', List.get_eq_getElem]
      exact List.getElem?_eq_getElem hplim'
    have hcg' : tk'.input[readPos tk]? = some c' := by
      rw [← hrpeq]
      exact hcg'0
    have hc' : some c' =
        (if readPos tk ∈ runMarks (f + 1) b tk then some (toAsciiLowercase c)
         else some c) := by
      rw [← hcg']
      have hq := hinp (readPos tk) (Nat.le_refl _)
      rw [hq, hcg]
      split <;> rfl
    have hcc : c' = c ∨ (isAsciiUppercase c = true ∧ c' = toAsciiLowercase c ∧
        caseInsensitiveOk tk.state = true) := by
      by_cases hM : readPos tk ∈ runMarks (f + 1) b tk
      · by_cases hU : isAsciiUppercase c = true
        · right
          refine ⟨hU, ?_, ?_⟩
          · have hq := hc'
            rw [if_pos hM] at hq
            exact Option.some.inj hq
          · simp only [runMarks] at hM
            rw [if_neg hTop] at hM
            cases hstep : stepIter tk with
            | panicked =>
              rw [hstep] at hM
              simp at hM
            | emit tok tk2 =>
              simp only [hstep] at hM
              have hge := marks_ge f false tk2 _ hM
              obtain ⟨hp2, -, hpl2⟩ := (step_shape hrc).1 tok tk2 hstep
              obtain ⟨hrecf, -⟩ := hpl2 hplain
              have hrp2 : readPos tk2 = tk2.pos := by
                rw [readPos, hrecf]
                simp
              exfalso
              omega
            | cont tk2 =>
              simp only [hstep] at hM
              rw [List.mem_append] at hM
              obtain ⟨hp2, -, hpl2⟩ := (step_shape hrc).2 tk2 hstep
              obtain ⟨-, hreim⟩ := hpl2 hplain
              rcases hM with hMi | hMr
              · cases him : iterMark tk with
                | none =>
                  rw [him] at hMi
                  simp at hMi
                | some q =>
                  obtain ⟨-, c0, t0, hr0, hst0⟩ := iterMark_some_facts him
                  rw [hrc] at hr0
                  have hpair0 := Option.some.inj hr0
                  injection hpair0 with hceq0 hteq0
                  have hts : tk.state = t0.state := by rw [← hst, hteq0]
                  rcases hst0 with h0 | h0 <;> rw [hts, h0] <;> rfl
              · have hge := marks_ge f true tk2 _ hMr
                cases hb2 : tk2.reconsume with
                | true => exact (hreim hb2).1
                | false =>
                  exfalso
                  have hrp2 : readPos tk2 = tk2.pos := by
                    rw [readPos, hb2]
                    simp
                  omega
        · left
          have hq := hc'
          rw [if_pos hM] at hq
          have h2 := Option.some.inj hq
          have hUf : isAsciiUppercase c = false := by
            rw [Bool.eq_false_iff]
            exact hU
          rw [h2, toAsciiLowercase_of_not_upper hUf]
      · left
        have hq := hc'
        rw [if_neg hM] at hq
        exact Option.some.inj hq
    rcases step_congr ⟨Fst, Fpos, Frec, Flat, Fbuf, Flen⟩ hrc hrc' hcc with
      hP | ⟨tok, tk2, tk2', h1, h2, hfe2, hi2, hi2'⟩ |
      ⟨tk2, tk2', h1, h2, hfe2, hi2, hi2'⟩
    · exact Or.inl hP
    · obtain ⟨hp2, -, hpl2⟩ := (step_shape hrc).1 tok tk2 h1
      obtain ⟨hrecf, hplain2⟩ := hpl2 hplain
      have hrp2 : readPos tk2 = tk2.pos := by
        rw [readPos, hrecf]
        simp
      refine Or.inr (Or.inl ⟨tok, tk2, tk2', h1, h2, hfe2, hplain2, ?_, ?_⟩)
      · rw [hp2, hi2]
        exact hplen
      · intro i hi
        rw [hi2, hi2']
        have hMeq : runMarks (f + 1) b tk = runMarks f false tk2 := by
          simp only [runMarks]
          rw [if_neg hTop]
          simp only [h1]
        rw [← hMeq]
        exact hinp i (by omega)
    · obtain ⟨hp2, -, hpl2⟩ := (step_shape hrc).2 tk2 h1
      obtain ⟨hplain2, hreim⟩ := hpl2 hplain
      refine Or.inr (Or.inr ⟨tk2, tk2', h1, h2, hfe2, hplain2, ?_, ?_⟩)
      · rw [hp2, hi2]
        exact hplen
      · intro i hi
        rw [hi2, hi2']
        have hMeq : runMarks (f + 1) b tk =
            (iterMark tk).toList ++ runMarks f true tk2 := by
          simp only [runMarks]
          rw [if_neg hTop]
          simp only [h1]
        have hbd := readPos_bounds tk2
        have hiR : readPos tk ≤ i := by omega
        have hmem : (i ∈ runMarks f true tk2) ↔ (i ∈ runMarks (f + 1) b tk) := by
          rw [hMeq, List.mem_append]
          cases him : iterMark tk with
          | none => simp
          | some q =>
            have hq := (iterMark_some_facts him).1
            cases hb2 : tk2.reconsume with
            | true =>
              have hcon := (hreim hb2).2
              rw [him] at hcon
              exact absurd hcon (by simp)
            | false =>
              have hrp2 : readPos tk2 = tk2.pos := by
                rw [readPos, hb2]
                simp
              have hne : i ≠ q := by omega
              simp [hne]
        rw [hinp i hiR]
        exact if_congr hmem.symm rfl rfl

/-- The full runs of two tokenizers related by the invariant produce the
same tokens and the same outcome. -/
theorem runTk_bisim :
    ∀ (f : Nat) (b : Bool) (tk tk' : HtmlTokenizer),
      Inv f b tk tk' → runTk f b tk' = runTk f b tk := by
  intro f
  induction f with
  | zero =>
    intro b tk tk' h
    rfl
  | succ f ih =>
    intro b tk tk' hInv
    have Fpos : tk'.pos = tk.pos := hInv.1.2.1
    have Flen : tk'.input.length = tk.input.length := hInv.1.2.2.2.2.2
    by_cases hTop : b = false ∧ tk.input.length ≤ tk.pos
    · have hTop' : b = false ∧ tk'.input.length ≤ tk'.pos := by
        rw [Flen, Fpos]
        exact hTop
      simp only [runTk]
      rw [if_pos hTop, if_pos hTop']
    · have hTop' : ¬ (b = false ∧ tk'.input.length ≤ tk'.pos) := by
        rw [Flen, Fpos]
        exact hTop
      rcases step_bisim f b tk tk' hInv hTop with
        ⟨h1, h2⟩ | ⟨tok, tk2, tk2', h1, h2, hInv2⟩ | ⟨tk2, tk2', h1, h2, hInv2⟩
      · simp only [runTk]
        rw [if_neg hTop, if_neg hTop']
        simp only [h1, h2]
      · simp only [runTk]
        rw [if_neg hTop, if_neg hTop']
        simp only [h1, h2]
        rw [ih false tk2 tk2' hInv2]
      · simp only [runTk]
        rw [if_neg hTop, if_neg hTop']
        simp only [h1, h2]
        exact ih true tk2 tk2' hInv2

/-- Pointwise description of `lowerFromAux`. -/
theorem lowerFromAux_getElem? (M : List Nat) :
    ∀ (s : List Char) (j i : Nat),
      (lowerFromAux M j s)[i]? =
        (if (j + i) ∈ M then (s[i]?).map toAsciiLowercase else s[i]?) := by
  intro s
  induction s with
  | nil =>
    intro j i
    simp only [lowerFromAux, List.getElem?_nil, Option.map_none']
    split <;> rfl
  | cons ch cs ih =>
    intro j i
    cases i with
    | zero =>
      simp only [lowerFromAux, List.getElem?_cons_zero, Nat.add_zero,
        Option.map_some']
      split <;> rfl
    | succ i =>
      simp only [lowerFromAux, List.getElem?_cons_succ]
      rw [ih (j + 1) i]
      have hji : j + 1 + i = j + (i + 1) := by omega
      rw [hji]

/-- Pointwise description of `lowerAt`. -/
theorem lowerAt_getElem? (M : List Nat) (s : List Char) (i : Nat) :
    (lowerAt M s)[i]? =
      (if i ∈ M then (s[i]?).map toAsciiLowercase else s[i]?) := by
  have h := lowerFromAux_getElem? M s 0 i
  rw [lowerAt, h, Nat.zero_add]

/-- Lowercasing via `lowerAt` preserves the length. -/
theorem lowerAt_length (M : List Nat) (s : List Char) :
    (lowerAt M s).length = s.length := by
  rw [lowerAt]
  generalize 0 = j
  induction s generalizing j with
  | nil => rfl
  | cons ch cs ih => simp [lowerFromAux, ih]

/-- Folding never leaves an uppercase letter. -/
theorem not_upper_fold (c : Char) :
    isAsciiUppercase (toAsciiLowercase c) = false := by
  cases h : isAsciiUppercase c with
  | true => exact not_upper_toAsciiLowercase h
  | false =>
    rw [toAsciiLowercase_of_not_upper h]
    exact h

/-- The fresh pending token has lowercase (empty) names. -/
theorem createTag_lower (b : Bool) : tokenNamesLower (createTag b) = true := by
  cases b <;> rfl

/-- Appending a non-uppercase character to the pending tag name keeps all
names lowercase. -/
theorem appendTagName_lower {c : Char} {lt : Option HtmlToken} {l : HtmlToken}
    (hc : isAsciiUppercase c = false)
    (h : appendTagName c lt = some l) (hl : pendingNamesLower lt = true) :
    tokenNamesLower l = true := by
  cases lt with
  | none => exact absurd h (by simp [appendTagName])
  | some tok =>
    cases tok with
    | StartTag tag sc attrs =>
      simp only [appendTagName] at h
      have hli := Option.some.inj h
      subst hli
      simp_all [pendingNamesLower, tokenNamesLower, noUpper, List.all_append]
      exact hl.2
    | EndTag tag =>
      simp only [appendTagName] at h
      have hli := Option.some.inj h
      subst hli
      simp_all [pendingNamesLower, tokenNamesLower, noUpper, List.all_append]
    | Char ch => exact absurd h (by simp [appendTagName])
    | Eof => exact absurd h (by simp [appendTagName])

/-- Starting a fresh (empty-named) attribute keeps all names lowercase. -/
theorem startNewAttribute_lower {lt : Option HtmlToken} {l : HtmlToken}
    (h : startNewAttribute lt = some l) (hl : pendingNamesLower lt = true) :
    tokenNamesLower l = true := by
  cases lt with
  | none => exact absurd h (by simp [startNewAttribute])
  | some tok =>
    cases tok with
    | StartTag tag sc attrs =>
      simp only [startNewAttribute] at h
      have hli := Option.some.inj h
      subst hli
      simp_all [pendingNamesLower, tokenNamesLower, noUpper, List.all_append,
        Attribute.new]
      exact hl.2
    | EndTag tag => exact absurd h (by simp [startNewAttribute])
    | Char ch => exact absurd h (by simp [startNewAttribute])
    | Eof => exact absurd h (by simp [startNewAttribute])

/-- Appending to the last attribute keeps all names lowercase, provided a
name append only ever adds a non-uppercase character. -/
theorem appendAttribute_lower {c : Char} {b : Bool} {lt : Option HtmlToken}
    {l : HtmlToken} (hc : b = true → isAsciiUppercase c = false)
    (h : appendAttribute c b lt = some l) (hl : pendingNamesLower lt = true) :
    tokenNamesLower l = true := by
  cases lt with
  | none => exact absurd h (by simp [appendAttribute])
  | some tok =>
    cases tok with
    | StartTag tag sc attrs =>
      simp only [appendAttribute] at h
      cases hg : attrs.getLast? with
      | none =>
        rw [hg] at h
        exact absurd h (by simp)
      | some a =>
        rw [hg] at h
        have hli := Option.some.inj h
        subst hli
        have hmem := List.mem_of_getLast?_eq_some hg
        simp only [pendingNamesLower, tokenNamesLower, Bool.and_eq_true] at hl
        obtain ⟨htag, hattrs⟩ := hl
        simp only [tokenNamesLower, Bool.and_eq_true]
        refine ⟨htag, ?_⟩
        rw [List.all_append, Bool.and_eq_true]
        constructor
        · rw [List.all_eq_true] at hattrs ⊢
          intro x hx
          exact hattrs x (List.dropLast_subset _ hx)
        · have han : noUpper a.name = true :=
            List.all_eq_true.mp hattrs a hmem
          cases b with
          | true =>
            have hcf := hc rfl
            simp_all [Attribute.add_char, noUpper, List.all_append]
          | false =>
            simp_all [Attribute.add_char, noUpper]
    | EndTag tag => exact absurd h (by simp [appendAttribute])
    | Char ch => exact absurd h (by simp [appendAttribute])
    | Eof => exact absurd h (by simp [appendAttribute])

/-- Setting the self-closing flag keeps all names lowercase. -/
theorem setSelfClosingFlag_lower {lt : Option HtmlToken} {l : HtmlToken}
    (h : setSelfClosingFlag lt = some l) (hl : pendingNamesLower lt = true) :
    tokenNamesLower l = true := by
  cases lt with
  | none => exact absurd h (by simp [setSelfClosingFlag])
  | some tok =>
    cases tok with
    | StartTag tag sc attrs =>
      simp only [setSelfClosingFlag] at h
      have hli := Option.some.inj h
      subst hli
      simp_all [pendingNamesLower, tokenNamesLower]
    | EndTag tag => exact absurd h (by simp [setSelfClosingFlag])
    | Char ch => exact absurd h (by simp [setSelfClosingFlag])
    | Eof => exact absurd h (by simp [setSelfClosingFlag])

/-- One loop iteration keeps every (pending or emitted) tag/attribute
name free of uppercase letters. -/
theorem step_names {tk : HtmlTokenizer}
    (hl : pendingNamesLower tk.latest_token = true) :
    (∀ tok tk2, stepIter tk = IterResult.emit tok tk2 →
      tokenNamesLower tok = true ∧
        pendingNamesLower tk2.latest_token = true) ∧
    (∀ tk2, stepIter tk = IterResult.cont tk2 →
      pendingNamesLower tk2.latest_token = true) := by
  cases hrc : readChar tk with
  | none =>
    constructor
    · intro tok tk2 hstep
      rw [show stepIter tk = IterResult.panicked by simp [stepIter, hrc]] at hstep
      exact absurd hstep (by simp)
    · intro tk2 hstep
      rw [show stepIter tk = IterResult.panicked by simp [stepIter, hrc]] at hstep
      exact absurd hstep (by simp)
  | some ct =>
    obtain ⟨c, t⟩ := ct
    obtain ⟨-, hlt, -, -, -, -, -, -, -⟩ := readChar_some hrc
    have hlT : pendingNamesLower t.latest_token = true := by
      rw [hlt]
      exact hl
    constructor
    · intro tok tk2 hstep
      simp only [stepIter, hrc] at hstep
      cases hsu : t.state <;> simp only [hsu] at hstep <;>
        (repeat' split at hstep) <;>
        first
        | (injection hstep with h1 h2
           subst h1
           subst h2
           first
           | exact ⟨rfl, hlT⟩
           | (rename_i heq
              first
              | (rw [heq] at hlT
                 exact ⟨hlT, rfl⟩)
              | exact ⟨setSelfClosingFlag_lower heq hlT, rfl⟩))
        | injection hstep
    · intro tk2 hstep
      simp only [stepIter, hrc] at hstep
      cases hsu : t.state <;> simp only [hsu] at hstep <;>
        (repeat' split at hstep) <;>
        first
        | (injection hstep with h1
           subst h1
           first
           | exact hlT
           | exact createTag_lower true
           | exact createTag_lower false
           | (rename_i heq
              first
              | exact appendTagName_lower (not_upper_fold _) heq hlT
              | (refine appendTagName_lower ?_ heq hlT
                 simp_all)
              | (refine appendAttribute_lower ?_ heq hlT
                 intro hx
                 first
                 | exact not_upper_fold _
                 | simp_all)
              | exact startNewAttribute_lower heq hlT))
        | injection hstep

/-- A run started with lowercase pending names emits only tokens whose
tag and attribute names are lowercase. -/
theorem runTk_namesLower :
    ∀ (f : Nat) (b : Bool) (tk : HtmlTokenizer),
      pendingNamesLower tk.latest_token = true →
      tokensNamesLower (runTk f b tk).1 = true := by
  intro f
  induction f with
  | zero =>
    intro b tk h
    rfl
  | succ f ih =>
    intro b tk h
    simp only [runTk]
    split
    · rfl
    · cases hstep : stepIter tk with
      | panicked => rfl
      | emit tok tk2 =>
        obtain ⟨hA, hB⟩ := (step_names h).1 tok tk2 hstep
        rw [show tokensNamesLower (tok :: (runTk f false tk2).1, (runTk f false tk2).2).1 =
          (tokenNamesLower tok && tokensNamesLower (runTk f false tk2).1) from rfl]
        rw [Bool.and_eq_true]
        exact ⟨hA, ih false tk2 hB⟩
      | cont tk2 =>
        exact ih true tk2 ((step_names h).2 tk2 hstep)

/-- Claim C5: for every input (and any fuel bound on the model's
recursion), every StartTag/EndTag tag name and every attribute name in
the emitted tokens is free of ASCII uppercase letters (uppercase is
folded before being appended); and re-tokenizing the input string with
the name characters already lowercased — `lowerAt` applied at exactly
the positions (`runMarks`) whose characters the run appends to a tag or
attribute name — yields a token sequence (and final outcome) identical
to the original one. -/
theorem claim_C5_lowercase_names (fuel : Nat) (input : List Char) :
    tokensNamesLower (tokenize fuel input).1 = true ∧
    tokenize fuel (lowerAt (runMarks fuel false (HtmlTokenizer.new input)) input) =
      tokenize fuel input := by
  constructor
  · exact runTk_namesLower fuel false (HtmlTokenizer.new input) rfl
  · exact runTk_bisim fuel false (HtmlTokenizer.new input)
      (HtmlTokenizer.new
        (lowerAt (runMarks fuel false (HtmlTokenizer.new input)) input))
      ⟨⟨rfl, rfl, rfl, rfl, rfl, lowerAt_length _ _⟩, rfl, Nat.zero_le _,
        fun i _ => lowerAt_getElem? _ input i⟩

/-- Claim C4: tokenizing `"<div class=\"a b\" disabled>"` yields exactly
one StartTag with tag `"div"` and the ordered attributes
`class="a b"` (inner space preserved) and `disabled=""`. -/
theorem claim_C4_attribute_extraction :
    tokenize 200 ("<div class=\"a b\" disabled>".toList) =
      ([HtmlToken.StartTag ("div".toList) false
          [{ name := "class".toList, value := "a b".toList },
           { name := "disabled".toList, value := [] }]],
       Outcome.done) := by
  rfl

end Saba
